import Mathlib

/-!
Verification of the two scripts of this repository.

Component A (src/python_learning_71b04e.py): the escape-time iterator
`mandelbrot` and the grid sampler `create_mandelbrot_image`.  Complex
numbers are embedded as pairs of rationals; the test `abs(z) > 2` of the
source is rendered exactly as `normSq z > 4`, which over exact arithmetic
is equivalent (|z| > 2 iff |z|^2 > 4, and normSq z = |z|^2).

Component B (src/python_tutorial_8596ee.py): the `ASTPrinter` visitor and
the `VariableAssignmentFinder` visitor over Python abstract syntax trees,
embedded as a closed inductive of the node kinds the script deals with.
-/

namespace Mandel

/-- A complex number with rational coordinates, standing for Python's
`complex` (the source runs on floats; the embedding uses exact
arithmetic). -/
structure QC where
  re : ℚ
  im : ℚ
deriving DecidableEq, Repr

/-- Complex addition, componentwise. -/
def QC.add (a b : QC) : QC := ⟨a.re + b.re, a.im + b.im⟩

/-- Complex multiplication. -/
def QC.mul (a b : QC) : QC := ⟨a.re * b.re - a.im * b.im, a.re * b.im + a.im * b.re⟩

/-- Squared magnitude: `abs(z) > 2` of the source is `normSq z > 4` here. -/
def QC.normSq (a : QC) : ℚ := a.re * a.re + a.im * a.im

/-- The loop body of `mandelbrot` (src/python_learning_71b04e.py lines
32-44): `z` is the current value, `i` the current loop index, `fuel` the
remaining iterations of `range(max_iterations)`.  Each pass computes
`z = z*z + c`, returns `i` when `abs(z) > 2`, and falls through to
`return max_iterations` when the range is exhausted (the invariant
`i + fuel = max_iterations` makes returning `i` at fuel 0 faithful). -/
def mandelbrotAux (c : QC) : QC → ℕ → ℕ → ℕ
  | _, i, 0 => i
  | z, i, fuel + 1 =>
    let z' := (z.mul z).add c
    if 4 < z'.normSq then i else mandelbrotAux c z' (i + 1) fuel

/-- `mandelbrot(c, max_iterations)` of the source: start from `z = 0`,
loop over `range(max_iterations)`. -/
def mandelbrot (c : QC) (maxIterations : ℕ) : ℕ :=
  mandelbrotAux c ⟨0, 0⟩ 0 maxIterations

/-- The mathematical orbit z_0 = 0, z_{k+1} = z_k^2 + c. -/
def zseq (c : QC) : ℕ → QC
  | 0 => ⟨0, 0⟩
  | k + 1 => ((zseq c k).mul (zseq c k)).add c

/-- Divergence is detected at loop index n when |z_{n+1}| > 2. -/
def escapesAt (c : QC) (n : ℕ) : Prop := 4 < ((zseq c (n + 1)).normSq)

instance (c : QC) (n : ℕ) : Decidable (escapesAt c n) := by
  unfold escapesAt; infer_instance

/-- `np.linspace(start, stop, num)` with the default `endpoint=True`, at
index `j`: `num` evenly spaced samples from `start` to `stop` inclusive,
i.e. `start + j * (stop - start) / (num - 1)`; for `num = 1` numpy
returns the single sample `start`. -/
def linspace (start stop : ℚ) (num : ℕ) (j : ℕ) : ℚ :=
  if num ≤ 1 then start else start + j * ((stop - start) / ((num : ℚ) - 1))

/-- `create_mandelbrot_image` (src/python_learning_71b04e.py lines
46-94): row `i` of the grid ranges over the imaginary axis, column `j`
over the real axis, and each cell holds
`mandelbrot(complex(real_axis[j], imaginary_axis[i]), max_iterations)`. -/
def create_mandelbrot_image (width height : ℕ) (xMin xMax yMin yMax : ℚ)
    (maxIterations : ℕ) : List (List ℕ) :=
  (List.range height).map (fun i =>
    (List.range width).map (fun j =>
      mandelbrot ⟨linspace xMin xMax width j, linspace yMin yMax height i⟩
        maxIterations))

/-- Spec-side sampling formula, written from the spec's words: the k-th of
`n` evenly spaced samples from `lo` to `hi` inclusive of both endpoints. -/
def evenlySpacedSample (lo hi : ℚ) (n : ℕ) (k : ℕ) : ℚ :=
  lo + k * (hi - lo) / ((n : ℚ) - 1)

end Mandel
namespace AST

/-- Expression context of a `Name` node (`ast.Load`, `ast.Store`,
`ast.Del`).  In CPython the ctx is itself a field-less AST node; neither
visitor of the script reacts to it (it has no handler and no children),
so it is embedded as a tag carried by the `name` constructor. -/
inductive Ctx where
  | load
  | store
  | del
deriving DecidableEq, Repr

/-- The Python AST node kinds handled by the script (the seven kinds with
`visit_` handlers in `ASTPrinter`, plus the kinds reached only through
`generic_visit` in its examples: `arguments`, `arg`, `JoinedStr`,
`FormattedValue`).  Child slots appear in the declared field order of the
`ast` grammar, which is the order `ast.iter_fields` yields them; scalar
fields (identifiers, the repr of a constant) are strings.  Empty or
`None` fields that the examples never populate (decorator lists, keyword
arguments, format specs, type comments) carry no child nodes and are
omitted. -/
inductive Node where
  | module (body : List Node)
  | functionDef (name : String) (args : Node) (body : List Node)
  | argumentsNode (args : List Node)
  | argNode (name : String)
  | assign (targets : List Node) (value : Node)
  | name (id : String) (ctx : Ctx)
  | constantLit (valueRepr : String)
  | exprStmt (value : Node)
  | call (func : Node) (args : List Node)
  | joinedStr (values : List Node)
  | formattedValue (value : Node)

/-- `type(node).__name__` for each node kind. -/
def kindName : Node → String
  | .module _ => "Module"
  | .functionDef _ _ _ => "FunctionDef"
  | .argumentsNode _ => "arguments"
  | .argNode _ => "arg"
  | .assign _ _ => "Assign"
  | .name _ _ => "Name"
  | .constantLit _ => "Constant"
  | .exprStmt _ => "Expr"
  | .call _ _ => "Call"
  | .joinedStr _ => "JoinedStr"
  | .formattedValue _ => "FormattedValue"

/-- `type(node.ctx).__name__`. -/
def ctxName : Ctx → String
  | .load => "Load"
  | .store => "Store"
  | .del => "Del"

/-- The identifiers `visit_Assign` appends for one assignment statement
(src/python_tutorial_8596ee.py lines 147-152): each target that is a
simple `ast.Name` contributes `target.id`, in target-list order; other
target shapes are skipped. -/
def storeTargetNames (targets : List Node) : List String :=
  targets.filterMap (fun t =>
    match t with
    | .name id _ => some id
    | _ => none)

mutual
/-- `VariableAssignmentFinder.visit` (src/python_tutorial_8596ee.py lines
143-154), returning the names appended to `self.assignments` in order:
assignment nodes run `visit_Assign` (record simple-name targets, then
`generic_visit` over the same node's children), every other kind runs the
inherited `ast.NodeVisitor.generic_visit`, which visits each child field
in declared order.  The dispatch is resolved per constructor here; each
right-hand side lists exactly the child nodes `ast.iter_fields` yields. -/
def finderVisit : Node → List String
  | .module body => finderVisitList body
  | .functionDef _ args body => finderVisit args ++ finderVisitList body
  | .argumentsNode args => finderVisitList args
  | .argNode _ => []
  | .assign targets value =>
      storeTargetNames targets ++ (finderVisitList targets ++ finderVisit value)
  | .name _ _ => []
  | .constantLit _ => []
  | .exprStmt value => finderVisit value
  | .call func args => finderVisit func ++ finderVisitList args
  | .joinedStr values => finderVisitList values
  | .formattedValue value => finderVisit value

/-- Visiting the items of a child list, left to right. -/
def finderVisitList : List Node → List String
  | [] => []
  | n :: ns => finderVisit n ++ finderVisitList ns
end

mutual
/-- Depth-first pre-order node sequence: the node itself, then the
pre-orders of its children in declared order (spec-side notion used to
state what the accumulator contains). -/
def preorder : Node → List Node
  | .module body => .module body :: preorderList body
  | .functionDef nm args body =>
      .functionDef nm args body :: (preorder args ++ preorderList body)
  | .argumentsNode args => .argumentsNode args :: preorderList args
  | .argNode nm => [.argNode nm]
  | .assign targets value =>
      .assign targets value :: (preorderList targets ++ preorder value)
  | .name id c => [.name id c]
  | .constantLit v => [.constantLit v]
  | .exprStmt value => .exprStmt value :: preorder value
  | .call func args => .call func args :: (preorder func ++ preorderList args)
  | .joinedStr values => .joinedStr values :: preorderList values
  | .formattedValue value => .formattedValue value :: preorder value

/-- Pre-orders of a list of siblings, concatenated. -/
def preorderList : List Node → List Node
  | [] => []
  | n :: ns => preorder n ++ preorderList ns
end

/-- The identifiers one node contributes to the accumulator: the
simple-name targets of an assignment statement, nothing otherwise. -/
def assignTargetIds : Node → List String
  | .assign targets _ => storeTargetNames targets
  | _ => []

/-- Spec-side description of the accumulator: for each node in
depth-first pre-order, the simple-name targets of the assignment
statements, concatenated in encounter order. -/
def specCollected (n : Node) : List String :=
  (preorder n).flatMap assignTargetIds

/-- The AST of `sample_code` (src/python_tutorial_8596ee.py lines
95-102): `def greet(name):` with body `message = f"Hello, {name}!"` and
`print(message)`, then `x = 100`, then `greet("World")`.  Constant
values are carried as their Python `repr` strings. -/
def sampleTree : Node :=
  .module [
    .functionDef "greet" (.argumentsNode [.argNode "name"]) [
      .assign [.name "message" .store]
        (.joinedStr [.constantLit "\x27Hello, \x27",
          .formattedValue (.name "name" .load),
          .constantLit "\x27!\x27"]),
      .exprStmt (.call (.name "print" .load) [.name "message" .load])],
    .assign [.name "x" .store] (.constantLit "100"),
    .exprStmt (.call (.name "greet" .load) [.constantLit "\x27World\x27"])]

/-- `'  ' * self.indent`: two spaces per level; a non-positive count
yields the empty string, as string repetition does in Python. -/
def indentPrefix (d : ℤ) : String :=
  String.mk (List.replicate (2 * d.toNat) ' ')

mutual
/-- `ASTPrinter.visit` (src/python_tutorial_8596ee.py lines 20-91),
returning the printed lines and the final `self.indent`.  Kinds with a
`visit_` handler print their kind-tailored summary, bump the indent, and
call `self.generic_visit(node)` — the overridden `generic_visit`, not
the base-class one — then restore the indent; `Name` and `Constant`
print one line and do not recurse; the remaining kinds fall back to the
overridden `generic_visit` directly. -/
def printerVisit : Node → ℤ → List String × ℤ
  | .name id c, d =>
      ([indentPrefix d ++ "Name (id: " ++ id ++ ", ctx: " ++ ctxName c ++ ")"],
        d)
  | .constantLit v, d =>
      ([indentPrefix d ++ "Constant (value: " ++ v ++ ")"], d)
  | .module body, d =>
      ((indentPrefix d ++ "Module (body_count: " ++ toString body.length ++
          ")") :: (printerGeneric (.module body) (d + 1)).1,
        (printerGeneric (.module body) (d + 1)).2 - 1)
  | .functionDef nm args body, d =>
      ((indentPrefix d ++ "FunctionDef (name: " ++ nm ++ ")") ::
          (printerGeneric (.functionDef nm args body) (d + 1)).1,
        (printerGeneric (.functionDef nm args body) (d + 1)).2 - 1)
  | .assign targets value, d =>
      ((indentPrefix d ++ "Assign (targets_count: " ++
          toString targets.length ++ ")") ::
          (printerGeneric (.assign targets value) (d + 1)).1,
        (printerGeneric (.assign targets value) (d + 1)).2 - 1)
  | .exprStmt value, d =>
      ((indentPrefix d ++ "Expr") :: (printerGeneric (.exprStmt value) (d + 1)).1,
        (printerGeneric (.exprStmt value) (d + 1)).2 - 1)
  | .call func args, d =>
      ((indentPrefix d ++ "Call (func_type: " ++ kindName func ++ ")") ::
          (printerGeneric (.call func args) (d + 1)).1,
        (printerGeneric (.call func args) (d + 1)).2 - 1)
  | .argumentsNode args, d => printerGeneric (.argumentsNode args) d
  | .argNode nm, d => printerGeneric (.argNode nm) d
  | .joinedStr values, d => printerGeneric (.joinedStr values) d
  | .formattedValue value, d => printerGeneric (.formattedValue value) d

/-- The overridden `ASTPrinter.generic_visit` (lines 26-35): print the
bare kind name at the current indent, bump the indent, visit every child
node in declared field order via `super().generic_visit`, restore the
indent.  For a `Name` node the single child is its ctx node, which has
no handler and no children, so it prints its bare kind name one level
deeper; a `Constant` and an `arg` have no child nodes. -/
def printerGeneric : Node → ℤ → List String × ℤ
  | .module body, d =>
      ((indentPrefix d ++ "Module") :: (printerVisitList body (d + 1)).1,
        (printerVisitList body (d + 1)).2 - 1)
  | .functionDef _ args body, d =>
      ((indentPrefix d ++ "FunctionDef") ::
          ((printerVisit args (d + 1)).1 ++
            (printerVisitList body (printerVisit args (d + 1)).2).1),
        (printerVisitList body (printerVisit args (d + 1)).2).2 - 1)
  | .argumentsNode args, d =>
      ((indentPrefix d ++ "arguments") :: (printerVisitList args (d + 1)).1,
        (printerVisitList args (d + 1)).2 - 1)
  | .argNode _, d => ([indentPrefix d ++ "arg"], d + 1 - 1)
  | .assign targets value, d =>
      ((indentPrefix d ++ "Assign") ::
          ((printerVisitList targets (d + 1)).1 ++
            (printerVisit value (printerVisitList targets (d + 1)).2).1),
        (printerVisit value (printerVisitList targets (d + 1)).2).2 - 1)
  | .name _ c, d =>
      ([indentPrefix d ++ "Name", indentPrefix (d + 1) ++ ctxName c],
        d + 1 - 1)
  | .constantLit _, d => ([indentPrefix d ++ "Constant"], d + 1 - 1)
  | .exprStmt value, d =>
      ((indentPrefix d ++ "Expr") :: (printerVisit value (d + 1)).1,
        (printerVisit value (d + 1)).2 - 1)
  | .call func args, d =>
      ((indentPrefix d ++ "Call") ::
          ((printerVisit func (d + 1)).1 ++
            (printerVisitList args (printerVisit func (d + 1)).2).1),
        (printerVisitList args (printerVisit func (d + 1)).2).2 - 1)
  | .joinedStr values, d =>
      ((indentPrefix d ++ "JoinedStr") :: (printerVisitList values (d + 1)).1,
        (printerVisitList values (d + 1)).2 - 1)
  | .formattedValue value, d =>
      ((indentPrefix d ++ "FormattedValue") :: (printerVisit value (d + 1)).1,
        (printerVisit value (d + 1)).2 - 1)

/-- Visiting the items of a child list in order, threading the indent. -/
def printerVisitList : List Node → ℤ → List String × ℤ
  | [], d => ([], d)
  | n :: ns, d =>
      ((printerVisit n d).1 ++ (printerVisitList ns (printerVisit n d).2).1,
        (printerVisitList ns (printerVisit n d).2).2)
end

end AST
namespace Mandel


theorem mandelbrotAux_no_escape (c : QC) (fuel : ℕ) : ∀ k : ℕ,
    (∀ j, k ≤ j → j < k + fuel → ¬ escapesAt c j) →
    mandelbrotAux c (zseq c k) k fuel = k + fuel := by
  induction fuel with
  | zero => intro k _; simp [mandelbrotAux]
  | succ fuel ih =>
    intro k h
    have hk : ¬ (4 < (((zseq c k).mul (zseq c k)).add c).normSq) :=
      h k le_rfl (by omega)
    have hz : ((zseq c k).mul (zseq c k)).add c = zseq c (k + 1) := rfl
    simp only [mandelbrotAux]
    rw [if_neg hk, hz, ih (k + 1) (fun j hj hj2 => h j (by omega) (by omega))]
    omega

theorem mandelbrotAux_escape (c : QC) (fuel : ℕ) : ∀ k n : ℕ,
    k ≤ n → n < k + fuel → escapesAt c n →
    (∀ j, k ≤ j → j < n → ¬ escapesAt c j) →
    mandelbrotAux c (zseq c k) k fuel = n := by
  induction fuel with
  | zero => intro k n h1 h2 _ _; omega
  | succ fuel ih =>
    intro k n h1 h2 hn hmin
    have hz : ((zseq c k).mul (zseq c k)).add c = zseq c (k + 1) := rfl
    simp only [mandelbrotAux]
    rcases Nat.eq_or_lt_of_le h1 with heq | hlt
    · subst heq
      have hn' : 4 < ((zseq c (k + 1)).normSq) := hn
      rw [hz, if_pos hn']
    · have hk : ¬ (4 < (((zseq c k).mul (zseq c k)).add c).normSq) :=
        hmin k le_rfl hlt
      rw [if_neg hk, hz]
      exact ih (k + 1) n hlt (by omega) hn (fun j hj hj2 => hmin j (by omega) hj2)

theorem mandelbrot_eq_of_least (c : QC) (n m : ℕ) (hnm : n < m)
    (hesc : escapesAt c n) (hmin : ∀ j, j < n → ¬ escapesAt c j) :
    mandelbrot c m = n :=
  mandelbrotAux_escape c m 0 n (Nat.zero_le n) (by omega) hesc
    (fun j _ hj => hmin j hj)

theorem mandelbrot_eq_cap (c : QC) (m : ℕ)
    (hno : ∀ n, n < m → ¬ escapesAt c n) : mandelbrot c m = m := by
  have h := mandelbrotAux_no_escape c m 0 (fun j _ hj => hno j (by omega))
  rw [Nat.zero_add] at h
  exact h

theorem mandelbrot_eq_find (c : QC) (m : ℕ) (hex : ∃ n, escapesAt c n)
    (h : Nat.find hex < m) : mandelbrot c m = Nat.find hex :=
  mandelbrot_eq_of_least c (Nat.find hex) m h (Nat.find_spec hex)
    (fun j hj => Nat.find_min hex hj)

theorem exists_escape_of_lt (c : QC) (m : ℕ) (h : mandelbrot c m < m) :
    ∃ n, n < m ∧ escapesAt c n := by
  by_contra hno
  push_neg at hno
  rw [mandelbrot_eq_cap c m hno] at h
  exact lt_irrefl m h

theorem getD_range_map {α : Type} (f : ℕ → α) (n i : ℕ) (d : α)
    (h : i < n) : ((List.range n).map f).getD i d = f i := by
  rw [List.getD_eq_getElem?_getD, List.getElem?_map, List.getElem?_range h]
  rfl

theorem linspace_eq_sample (lo hi : ℚ) (n j : ℕ) (hj : j < n) :
    linspace lo hi n j = evenlySpacedSample lo hi n j := by
  unfold linspace evenlySpacedSample
  by_cases h1 : n ≤ 1
  · have hn1 : n = 1 := by omega
    subst hn1
    have hj0 : j = 0 := by omega
    subst hj0
    simp
  · rw [if_neg h1]
    ring

theorem sample_zero (lo hi : ℚ) (n : ℕ) : evenlySpacedSample lo hi n 0 = lo := by
  unfold evenlySpacedSample
  simp

theorem sample_last (lo hi : ℚ) (n : ℕ) (hn : 2 ≤ n) :
    evenlySpacedSample lo hi n (n - 1) = hi := by
  unfold evenlySpacedSample
  have hcast : ((n - 1 : ℕ) : ℚ) = (n : ℚ) - 1 := by
    rw [Nat.cast_sub (by omega)]
    norm_num
  have hne : ((n : ℚ) - 1) ≠ 0 := by
    have h2 : (2 : ℚ) ≤ (n : ℚ) := by exact_mod_cast hn
    intro h0
    linarith
  rw [hcast, mul_comm ((n : ℚ) - 1) (hi - lo), mul_div_assoc, div_self hne,
    mul_one]
  ring

/-- C1: for every complex number c and positive cap m, `mandelbrot c m`
returns the smallest loop index n with 0 ≤ n < m such that the orbit
z_0 = 0, z_{k+1} = z_k^2 + c satisfies |z_{n+1}| > 2 (rendered as
normSq > 4, equivalent over exact arithmetic), and returns m when no such
n exists within the cap. -/
theorem mandelbrot_escape_time (c : QC) (m : ℕ) (hm : 0 < m) :
    ((∃ n, n < m ∧ escapesAt c n) →
        mandelbrot c m < m ∧ escapesAt c (mandelbrot c m) ∧
          ∀ j, j < mandelbrot c m → ¬ escapesAt c j) ∧
    ((∀ n, n < m → ¬ escapesAt c n) → mandelbrot c m = m) := by
  refine ⟨?_, mandelbrot_eq_cap c m⟩
  rintro ⟨n, hn, he⟩
  have hex : ∃ k, escapesAt c k := ⟨n, he⟩
  have hfl : Nat.find hex < m := lt_of_le_of_lt (Nat.find_min' hex he) hn
  rw [mandelbrot_eq_find c m hex hfl]
  exact ⟨hfl, Nat.find_spec hex, fun j hj => Nat.find_min hex hj⟩

/-- Witness for C1, at c = 3 + 0i and m = 2. -/
theorem mandelbrot_escape_time_witness :
    0 < 2 ∧
      (((∃ n, n < 2 ∧ escapesAt ⟨3, 0⟩ n) →
          mandelbrot ⟨3, 0⟩ 2 < 2 ∧ escapesAt ⟨3, 0⟩ (mandelbrot ⟨3, 0⟩ 2) ∧
            ∀ j, j < mandelbrot ⟨3, 0⟩ 2 → ¬ escapesAt ⟨3, 0⟩ j) ∧
        ((∀ n, n < 2 → ¬ escapesAt ⟨3, 0⟩ n) → mandelbrot ⟨3, 0⟩ 2 = 2)) :=
  ⟨by decide, mandelbrot_escape_time ⟨3, 0⟩ 2 (by decide)⟩

/-- C7: the escape time is stable under raising the iteration cap: if the
point diverged within the old cap m the result is unchanged at any cap
m2 ≥ m, and if it was still bounded at m the result at m2 is at least m. -/
theorem mandelbrot_cap_monotone (c : QC) (m m2 : ℕ) (hm : 0 < m)
    (hmm : m ≤ m2) :
    (mandelbrot c m < m → mandelbrot c m2 = mandelbrot c m) ∧
    (mandelbrot c m = m → m ≤ mandelbrot c m2) := by
  constructor
  · intro h
    obtain ⟨n, hn, he⟩ := exists_escape_of_lt c m h
    have hex : ∃ k, escapesAt c k := ⟨n, he⟩
    have hfm : Nat.find hex < m := lt_of_le_of_lt (Nat.find_min' hex he) hn
    rw [mandelbrot_eq_find c m hex hfm,
      mandelbrot_eq_find c m2 hex (lt_of_lt_of_le hfm hmm)]
  · intro h
    have hno : ∀ n, n < m → ¬ escapesAt c n := by
      intro n hn he
      have hex : ∃ k, escapesAt c k := ⟨n, he⟩
      have hfm : Nat.find hex < m := lt_of_le_of_lt (Nat.find_min' hex he) hn
      rw [mandelbrot_eq_find c m hex hfm] at h
      omega
    by_cases hex2 : ∃ n, n < m2 ∧ escapesAt c n
    · obtain ⟨n, hn, he⟩ := hex2
      have hex : ∃ k, escapesAt c k := ⟨n, he⟩
      have hfm : Nat.find hex < m2 := lt_of_le_of_lt (Nat.find_min' hex he) hn
      rw [mandelbrot_eq_find c m2 hex hfm]
      by_contra hlt
      push_neg at hlt
      exact hno _ hlt (Nat.find_spec hex)
    · push_neg at hex2
      rw [mandelbrot_eq_cap c m2 (fun n hn => hex2 n hn)]
      exact hmm

/-- Witness for C7, at c = 3 + 0i, m = 1, m2 = 3. -/
theorem mandelbrot_cap_monotone_witness :
    0 < 1 ∧ 1 ≤ 3 ∧
      ((mandelbrot ⟨3, 0⟩ 1 < 1 → mandelbrot ⟨3, 0⟩ 3 = mandelbrot ⟨3, 0⟩ 1) ∧
        (mandelbrot ⟨3, 0⟩ 1 = 1 → 1 ≤ mandelbrot ⟨3, 0⟩ 3)) :=
  ⟨by decide, by decide,
    mandelbrot_cap_monotone ⟨3, 0⟩ 1 3 (by decide) (by decide)⟩

/-- C8: for every c with |c| > 2 (rendered as normSq c > 4) and every
positive cap the escape time is 0, because z_1 = c already exceeds the
escape radius on the first iteration. -/
theorem mandelbrot_escape_radius_zero (c : QC) (m : ℕ)
    (hc : 4 < c.normSq) (hm : 0 < m) : mandelbrot c m = 0 := by
  have hz : zseq c 1 = c := by
    cases c with
    | mk re im => simp [zseq, QC.mul, QC.add]
  have he : escapesAt c 0 := by
    show (4 : ℚ) < (zseq c 1).normSq
    rw [hz]
    exact hc
  exact mandelbrot_eq_of_least c 0 m hm he
    (fun j hj => absurd hj (Nat.not_lt_zero j))

/-- Witness for C8, at c = 0 + 3i and m = 5. -/
theorem mandelbrot_escape_radius_zero_witness :
    4 < (QC.mk 0 3).normSq ∧ 0 < 5 ∧ mandelbrot ⟨0, 3⟩ 5 = 0 :=
  ⟨by norm_num [QC.normSq], by decide,
    mandelbrot_escape_radius_zero ⟨0, 3⟩ 5 (by norm_num [QC.normSq]) (by decide)⟩

/-- C2: for positive dimensions and caps and proper bounds, the grid has
shape (height, width); cell (row, col) is the escape time at the complex
coordinate whose real part is the col-th of `width` evenly spaced samples
from xMin to xMax and whose imaginary part is the row-th of `height`
evenly spaced samples from yMin to yMax (both axes including their
endpoints whenever the axis has at least two samples); cell (0,0) is the
escape time at (xMin, yMin); and the row index increases with the
imaginary part. -/
theorem create_image_grid_spec (w h : ℕ) (xMin xMax yMin yMax : ℚ)
    (mi : ℕ) (hw : 0 < w) (hh : 0 < h) (hx : xMin < xMax) (hy : yMin < yMax)
    (hmi : 0 < mi) :
    (create_mandelbrot_image w h xMin xMax yMin yMax mi).length = h ∧
    (∀ row ∈ create_mandelbrot_image w h xMin xMax yMin yMax mi,
        row.length = w) ∧
    (∀ i j, i < h → j < w →
        ((create_mandelbrot_image w h xMin xMax yMin yMax mi).getD i
            []).getD j 0 =
          mandelbrot ⟨evenlySpacedSample xMin xMax w j,
            evenlySpacedSample yMin yMax h i⟩ mi) ∧
    (((create_mandelbrot_image w h xMin xMax yMin yMax mi).getD 0
          []).getD 0 0 =
        mandelbrot ⟨xMin, yMin⟩ mi) ∧
    (∀ i1 i2, i1 < i2 → i2 < h →
        evenlySpacedSample yMin yMax h i1 <
          evenlySpacedSample yMin yMax h i2) ∧
    (evenlySpacedSample xMin xMax w 0 = xMin ∧
      (2 ≤ w → evenlySpacedSample xMin xMax w (w - 1) = xMax)) ∧
    (evenlySpacedSample yMin yMax h 0 = yMin ∧
      (2 ≤ h → evenlySpacedSample yMin yMax h (h - 1) = yMax)) := by
  have hcells : ∀ i j, i < h → j < w →
      ((create_mandelbrot_image w h xMin xMax yMin yMax mi).getD i
          []).getD j 0 =
        mandelbrot ⟨evenlySpacedSample xMin xMax w j,
          evenlySpacedSample yMin yMax h i⟩ mi := by
    intro i j hi hj
    unfold create_mandelbrot_image
    rw [getD_range_map _ h i _ hi, getD_range_map _ w j _ hj,
      linspace_eq_sample xMin xMax w j hj, linspace_eq_sample yMin yMax h i hi]
  refine ⟨by simp [create_mandelbrot_image], ?_, hcells, ?_, ?_,
    ⟨sample_zero xMin xMax w, fun h2 => sample_last xMin xMax w h2⟩,
    ⟨sample_zero yMin yMax h, fun h2 => sample_last yMin yMax h h2⟩⟩
  · intro row hrow
    unfold create_mandelbrot_image at hrow
    rw [List.mem_map] at hrow
    obtain ⟨i, _, rfl⟩ := hrow
    simp
  · rw [hcells 0 0 hh hw, sample_zero, sample_zero]
  · intro i1 i2 h12 h2h
    have hh2 : (2 : ℚ) ≤ (h : ℚ) := by exact_mod_cast (by omega : 2 ≤ h)
    have hd : (0 : ℚ) < (h : ℚ) - 1 := by linarith
    have hyd : (0 : ℚ) < yMax - yMin := by linarith
    have hc : (i1 : ℚ) < (i2 : ℚ) := by exact_mod_cast h12
    unfold evenlySpacedSample
    gcongr

/-- Witness for C2, at a 2 x 2 grid over [-2, 1] x [-1, 1] with cap 3. -/
theorem create_image_grid_spec_witness :
    0 < 2 ∧ (-2 : ℚ) < 1 ∧ (-1 : ℚ) < 1 ∧ 0 < 3 ∧
      ((create_mandelbrot_image 2 2 (-2) 1 (-1) 1 3).length = 2 ∧
      (∀ row ∈ create_mandelbrot_image 2 2 (-2) 1 (-1) 1 3,
          row.length = 2) ∧
      (∀ i j, i < 2 → j < 2 →
          ((create_mandelbrot_image 2 2 (-2) 1 (-1) 1 3).getD i []).getD j 0 =
            mandelbrot ⟨evenlySpacedSample (-2) 1 2 j,
              evenlySpacedSample (-1) 1 2 i⟩ 3) ∧
      (((create_mandelbrot_image 2 2 (-2) 1 (-1) 1 3).getD 0 []).getD 0 0 =
          mandelbrot ⟨-2, -1⟩ 3) ∧
      (∀ i1 i2, i1 < i2 → i2 < 2 →
          evenlySpacedSample (-1) 1 2 i1 < evenlySpacedSample (-1) 1 2 i2) ∧
      (evenlySpacedSample (-2) 1 2 0 = -2 ∧
        (2 ≤ 2 → evenlySpacedSample (-2) 1 2 (2 - 1) = 1)) ∧
      (evenlySpacedSample (-1) 1 2 0 = -1 ∧
        (2 ≤ 2 → evenlySpacedSample (-1) 1 2 (2 - 1) = 1))) :=
  ⟨by decide, by decide, by decide, by decide,
    create_image_grid_spec 2 2 (-2) 1 (-1) 1 3 (by decide) (by decide)
      (by decide) (by decide) (by decide)⟩

/-- C9: when an axis has a single sample (width 1 or height 1), that
sample is the lower bound of the axis, so the one-column (one-row) grid is
evaluated exactly at the lower bound. -/
theorem single_sample_axis_lower_bound (w h : ℕ) (xMin xMax yMin yMax : ℚ)
    (mi : ℕ) (hw : 0 < w) (hh : 0 < h) :
    (linspace xMin xMax 1 0 = xMin ∧
      ∀ i, i < h →
        ((create_mandelbrot_image 1 h xMin xMax yMin yMax mi).getD i
            []).getD 0 0 =
          mandelbrot ⟨xMin, linspace yMin yMax h i⟩ mi) ∧
    (linspace yMin yMax 1 0 = yMin ∧
      ∀ j, j < w →
        ((create_mandelbrot_image w 1 xMin xMax yMin yMax mi).getD 0
            []).getD j 0 =
          mandelbrot ⟨linspace xMin xMax w j, yMin⟩ mi) := by
  have hx1 : linspace xMin xMax 1 0 = xMin := by simp [linspace]
  have hy1 : linspace yMin yMax 1 0 = yMin := by simp [linspace]
  refine ⟨⟨hx1, ?_⟩, ⟨hy1, ?_⟩⟩
  · intro i hi
    unfold create_mandelbrot_image
    rw [getD_range_map _ h i _ hi, getD_range_map _ 1 0 _ (by omega), hx1]
  · intro j hj
    unfold create_mandelbrot_image
    rw [getD_range_map _ 1 0 _ (by omega), getD_range_map _ w j _ hj, hy1]

/-- Witness for C9, at w = 2 and h = 2. -/
theorem single_sample_axis_lower_bound_witness :
    0 < 2 ∧
      ((linspace (-2) 1 1 0 = -2 ∧
        ∀ i, i < 2 →
          ((create_mandelbrot_image 1 2 (-2) 1 (-1) 1 3).getD i []).getD 0 0 =
            mandelbrot ⟨-2, linspace (-1) 1 2 i⟩ 3) ∧
      (linspace (-1) 1 1 0 = -1 ∧
        ∀ j, j < 2 →
          ((create_mandelbrot_image 2 1 (-2) 1 (-1) 1 3).getD 0 []).getD j 0 =
            mandelbrot ⟨linspace (-2) 1 2 j, -1⟩ 3)) :=
  ⟨by decide,
    single_sample_axis_lower_bound 2 2 (-2) 1 (-1) 1 3 (by decide) (by decide)⟩

end Mandel
namespace AST

theorem finder_collects_preorder :
    (∀ n : Node, finderVisit n = (preorder n).flatMap assignTargetIds) ∧
    (∀ ns : List Node,
        finderVisitList ns = (preorderList ns).flatMap assignTargetIds) := by
  apply finderVisit.mutual_induct
  all_goals intros
  all_goals simp_all [finderVisit, finderVisitList, preorder, preorderList,
    assignTargetIds]

theorem printer_depth_invariant :
    (∀ (n : Node) (d : ℤ), (printerVisit n d).2 = d) ∧
    (∀ (n : Node) (d : ℤ), (printerGeneric n d).2 = d) ∧
    (∀ (ns : List Node) (d : ℤ), (printerVisitList ns d).2 = d) := by
  apply printerVisit.mutual_induct
  all_goals intros
  all_goals simp_all only [printerVisit, printerGeneric, printerVisitList]
  all_goals omega

/-- C3: the accumulator of `VariableAssignmentFinder` is exactly the
simple-name assignment-target identifiers in the depth-first pre-order of
their enclosing assignment statements (duplicates once per assignment,
non-name targets skipped), and on the sample program — whose function
`greet` assigning `message` is defined before the top-level `x = 100` —
it is `["message", "x"]`. -/
theorem finder_assignments_spec :
    (∀ n : Node, finderVisit n = specCollected n) ∧
    finderVisit sampleTree = ["message", "x"] :=
  ⟨fun n => finder_collects_preorder.1 n, by rfl⟩

/-- C6: after `ASTPrinter.visit(root)` returns, the visitor's indent
equals its starting value, for every tree and every starting depth. -/
theorem printer_indent_restored (n : Node) (d : ℤ) :
    (printerVisit n d).2 = d :=
  printer_depth_invariant.1 n d

/-- C4 (failing evaluation): visiting a module whose only statement is a
constant prints the child at depth 2 rather than depth 1 — the
kind-specific handler bumps the indent once and its `self.generic_visit`
call, being the overridden printing version, bumps it again before the
children, so the depth increase per visited node is 2, not 1. -/
theorem printer_double_indent_eval :
    printerVisit (.module [.constantLit "1"]) 0 =
      (["Module (body_count: 1)", "  Module", "    Constant (value: 1)"],
        0) := by
  simp [printerVisit, printerGeneric, printerVisitList, indentPrefix]
  rfl

/-- C5 (failing evaluation): the tree below has exactly two visited nodes
(the module and the name), yet three lines are printed: the module's
handler prints its summary line and then `self.generic_visit` prints the
bare kind name of the same node a second time. -/
theorem printer_two_lines_eval :
    printerVisit (.module [.name "y" .load]) 0 =
      (["Module (body_count: 1)", "  Module", "    Name (id: y, ctx: Load)"],
        0) := by
  simp [printerVisit, printerGeneric, printerVisitList, indentPrefix, ctxName]
  rfl

/-- C10: recording a simple-name target and then recursing into the same
targets via `generic_visit` does not append a second copy: a `Name`
target contributes nothing when visited, because only `visit_Assign`
appends and a `Name` is not an assignment node. -/
theorem assign_targets_once (targets : List Node) (value : Node)
    (h : ∀ t ∈ targets, ∃ s c, t = Node.name s c) :
    finderVisit (.assign targets value) =
      storeTargetNames targets ++ finderVisit value := by
  have hnil : finderVisitList targets = [] := by
    induction targets with
    | nil => rfl
    | cons t ts ih =>
      obtain ⟨s, c, rfl⟩ := h t (List.mem_cons_self t ts)
      have hrest := ih (fun u hu => h u (List.mem_cons_of_mem _ hu))
      simp [finderVisitList, finderVisit, hrest]
  simp [finderVisit, hnil]

/-- Witness for C10, at the assignment `x = 100`. -/
theorem assign_targets_once_witness :
    (∀ t ∈ [Node.name "x" Ctx.store], ∃ s c, t = Node.name s c) ∧
      finderVisit (.assign [.name "x" .store] (.constantLit "100")) =
        storeTargetNames [.name "x" .store] ++
          finderVisit (.constantLit "100") :=
  ⟨fun t ht => ⟨"x", Ctx.store, by simpa using ht⟩,
    assign_targets_once [.name "x" .store] (.constantLit "100")
      (fun t ht => ⟨"x", Ctx.store, by simpa using ht⟩)⟩

end AST
